import Mathlib

/-!
Verification of the `act` job orchestrator (`pkg/runner/run_context.go`, plus the
Docker volume-removal executor) against its natural-language specification.

The Go code is shallowly embedded: pure helpers become Lean functions, stateful
code becomes explicit state passing, Go `error` values become `Option String`
(`none` = nil error), Go string-keyed maps become `String → Option String`.
External collaborators (the container driver, the expression evaluator, the
step-runner contract) are passed in as explicit parameters, mirroring the
interfaces the orchestrator consumes.
-/

namespace Act

/-- A Go `map[string]string`, modelled as a lookup function
(`none` = key absent). -/
abbrev SMap := String → Option String

/-- Go map assignment `m[k] = v`. -/
def updateS (m : SMap) (k v : String) : SMap :=
  fun x => if x = k then some v else m x

/-- The empty Go map. -/
def emptyS : SMap := fun _ => none

/-- `model.StepStatus` as used by `run_context.go`
(`StepStatusSuccess`, `StepStatusFailure`, `StepStatusSkipped`). -/
inductive StepStatus where
  | success
  | failure
  | skipped
deriving DecidableEq, Repr

/-- `model.StepResult` as used by `run_context.go`: the raw `Outcome`, the
`Conclusion` after the continue-on-error policy, and the step's `Outputs`. -/
structure StepResult where
  outcome : StepStatus
  conclusion : StepStatus
  outputs : SMap

/-! ## Environment layering: `GetEnv` (run_context.go lines 92-98) -/

/-- The fields of `RunContext` that `GetEnv` reads and writes: the memoized
`rc.Env` (`none` = Go `nil` map) and the three environment layers
`rc.Config.Env`, `rc.Run.Workflow.Env`, `rc.Run.Job().Environment()`. -/
structure EnvRC where
  env : Option SMap
  configEnv : SMap
  workflowEnv : SMap
  jobEnv : SMap

/-- `mergeMaps` from `run_context.go` (lines 566-574): iterate the given maps in
order, later writes overriding earlier ones. -/
def mergeMaps (maps : List SMap) : SMap :=
  fun k =>
    maps.foldl (fun acc m => match m k with | some v => some v | none => acc) none

/-- `GetEnv` from `run_context.go` (lines 92-98): if `rc.Env` is nil, compute the
merge of config, workflow and job env; then force `rc.Env["ACT"] = "true"`.
Returns the resulting map together with the mutated `RunContext` state. -/
def GetEnv (rc : EnvRC) : SMap × EnvRC :=
  let base := match rc.env with
    | none => mergeMaps [rc.configEnv, rc.workflowEnv, rc.jobEnv]
    | some e => e
  let e := updateS base "ACT" "true"
  (e, { rc with env := some e })

/-! ## Job status: `getJobContext` (run_context.go lines 609-620) -/

/-- `getJobContext` from `run_context.go` (lines 609-620): the job status is
`"failure"` iff some recorded step result has `Conclusion == Failure`,
otherwise `"success"`.  Only the `Conclusion` field is inspected. -/
def getJobContext (stepResults : List StepResult) : String :=
  if stepResults.any (fun r => r.conclusion == StepStatus.failure) then "failure"
  else "success"

/-! ## Theorems about `GetEnv` and `getJobContext` -/

/-- C6: `GetEnv` always contains the local-execution marker `ACT="true"`; on the
first (merging) call, for any key other than the forced marker, the job-level
value overrides the workflow-level value which overrides the global config
value; and repeated calls are idempotent — the second call returns the same
mapping and the same state, and never re-merges the layers (its result is
unchanged even if every layer is replaced afterwards). -/
theorem GetEnv_spec (rc : EnvRC) :
    ((GetEnv rc).1 "ACT" = some "true") ∧
    (∀ k v, rc.env = none → k ≠ "ACT" →
      ((rc.jobEnv k = some v → (GetEnv rc).1 k = some v) ∧
       (rc.jobEnv k = none → rc.workflowEnv k = some v → (GetEnv rc).1 k = some v) ∧
       (rc.jobEnv k = none → rc.workflowEnv k = none →
         (GetEnv rc).1 k = rc.configEnv k))) ∧
    (GetEnv ((GetEnv rc).2) = ((GetEnv rc).1, (GetEnv rc).2)) ∧
    (∀ c w j,
      (GetEnv { (GetEnv rc).2 with configEnv := c, workflowEnv := w, jobEnv := j }).1
        = (GetEnv rc).1) := by
  obtain ⟨env0, c0, w0, j0⟩ := rc
  have hupd : ∀ b : SMap, updateS (updateS b "ACT" "true") "ACT" "true"
      = updateS b "ACT" "true" := by
    intro b
    funext x
    by_cases hx : x = "ACT" <;> simp [updateS, hx]
  refine ⟨?_, ?_, ?_, ?_⟩
  · simp [GetEnv, updateS]
  · intro k v henv hk
    simp only at henv
    subst henv
    refine ⟨?_, ?_, ?_⟩
    · intro hj
      have hj' : j0 k = some v := hj
      simp [GetEnv, updateS, hk, mergeMaps, hj']
    · intro hj hw
      have hj' : j0 k = none := hj
      have hw' : w0 k = some v := hw
      simp [GetEnv, updateS, hk, mergeMaps, hj', hw']
    · intro hj hw
      have hj' : j0 k = none := hj
      have hw' : w0 k = none := hw
      simp only [GetEnv, updateS, mergeMaps, List.foldl, hj', hw', if_neg hk]
      cases c0 k <;> rfl
  · simp only [GetEnv]
    rw [hupd]
  · intro c w j
    simp only [GetEnv]
    rw [hupd]

/-- Concrete environment layers used to witness `GetEnv_spec`:
`config = {A:"0", C:"c0"}`, `workflow = {A:"1"}`, `job = {A:"2", B:"3"}`. -/
def rcC6 : EnvRC where
  env := none
  configEnv := fun k => if k = "A" then some "0" else if k = "C" then some "c0" else none
  workflowEnv := fun k => if k = "A" then some "1" else none
  jobEnv := fun k => if k = "A" then some "2" else if k = "B" then some "3" else none

/-- Witness for C6 at the concrete layers of `rcC6`: the marker is present and
the overlapping key `A` resolves to the job-level value `"2"`. -/
theorem GetEnv_spec_witness :
    (GetEnv rcC6).1 "ACT" = some "true" ∧ (GetEnv rcC6).1 "A" = some "2" := by
  have h := GetEnv_spec rcC6
  exact ⟨h.1, (h.2.1 "A" "2" rfl (by decide)).1 rfl⟩

/-- C10: `getJobContext` reports `"failure"` iff some recorded step result has
`Conclusion = Failure`, and `"success"` otherwise; the `Outcome` field is
ignored — arbitrarily rewriting every step's outcome never changes the job
status, so a failed step whose conclusion was forced to `Success` by
continue-on-error never makes the job status `"failure"`. -/
theorem getJobContext_spec (rs : List StepResult) :
    (getJobContext rs = "failure" ↔ ∃ r ∈ rs, r.conclusion = StepStatus.failure) ∧
    (getJobContext rs = "success" ↔ ¬ ∃ r ∈ rs, r.conclusion = StepStatus.failure) ∧
    (∀ g : StepResult → StepStatus,
      getJobContext (rs.map fun r => { r with outcome := g r }) = getJobContext rs) := by
  have hane : (rs.any (fun r => r.conclusion == StepStatus.failure) = true)
      ↔ (∃ r ∈ rs, r.conclusion = StepStatus.failure) := by
    simp [List.any_eq_true]
  refine ⟨?_, ?_, ?_⟩
  · rw [getJobContext]
    split
    · next h => exact iff_of_true rfl (hane.mp h)
    · next h => exact iff_of_false (by decide) fun hex => h (hane.mpr hex)
  · rw [getJobContext]
    split
    · next h => exact iff_of_false (by decide) (by simp [hane.mp h])
    · next h => exact iff_of_true rfl fun hex => h (hane.mpr hex)
  · intro g
    rw [getJobContext, getJobContext, List.any_map]
    rfl

/-- Witness for C10: a step with `Outcome = Failure` but `Conclusion = Success`
(continue-on-error) does not make the job status `"failure"`. -/
theorem getJobContext_spec_witness :
    getJobContext [⟨StepStatus.failure, StepStatus.success, emptyS⟩] = "success" := by
  exact (getJobContext_spec [⟨StepStatus.failure, StepStatus.success, emptyS⟩]).2.1.mpr
    (by simp)

/-! ## Per-step execution: `newStepExecutor` (run_context.go lines 412-491) -/

/-- The fields of `model.Step` that `newStepExecutor` reads:
`Step.ID` and `Step.ContinueOnError`. -/
structure Step where
  id : String
  continueOnError : Bool

/-- The external step-runner contract and container I/O consumed by one run of
`newStepExecutor`: the results of `sc.isEnabled(ctx)` (a bool or an error), of
`sc.setupEnv(ctx)` (`some e` = error), of the step body `sc.Executor(ctx)(ctx)`
(`some e` = failure), and of reading back the step's output file via
`rc.JobContainer.UpdateFromEnv` (a read error, or the parsed key/value
pairs). -/
structure StepIO where
  isEnabled : Except String Bool
  setupEnv : Option String
  body : Option String
  readOutput : Except String (List (String × String))

/-- The `RunContext` state mutated by `newStepExecutor`: `rc.CurrentStep` and
the step-id → `StepResult` mapping `rc.StepResults`. -/
structure StepRC where
  currentStep : String
  stepResults : String → Option StepResult

/-- In-place update of the recorded `StepResult` at key `id`
(Go `rc.StepResults[id].Field = ...`). -/
def modifyResult (rc : StepRC) (id : String) (f : StepResult → StepResult) : StepRC :=
  { rc with
    stepResults := fun x => if x = id then (rc.stepResults x).map f else rc.stepResults x }

/-- Modelled from the spec: `rc.setOutput` (the runner's output-command handler,
defined outside `run_context.go`) publishes a parsed key/value pair "to that
step's output mapping", i.e. into `rc.StepResults[rc.CurrentStep].Outputs`. -/
def setOutput (rc : StepRC) (k v : String) : StepRC :=
  modifyResult rc rc.currentStep fun r => { r with outputs := updateS r.outputs k v }

/-- The `for k, v := range output { rc.setOutput(...) }` loop of
`newStepExecutor` (lines 483-485). -/
def publishOutputs (pairs : List (String × String)) (rc : StepRC) : StepRC :=
  pairs.foldl (fun st kv => setOutput st kv.1 kv.2) rc

/-- `newStepExecutor` from `run_context.go` (lines 412-491): record an
optimistic-success result; consult `isEnabled` (error ⇒ failure/failure, false ⇒
skipped); run `setupEnv`; run the step body, applying the continue-on-error
policy on failure; then read the output file back and publish every parsed
pair, a read error taking priority over the remembered step error `orgerr`.
(The `Copy` staging the empty output/state files, line 453, discards its error
and does not affect this state, so it is not modelled.) -/
def newStepExecutor (step : Step) (io : StepIO) (rc0 : StepRC) : StepRC × Option String :=
  let rc : StepRC :=
    { currentStep := step.id
      stepResults := fun x =>
        if x = step.id then some ⟨StepStatus.success, StepStatus.success, emptyS⟩
        else rc0.stepResults x }
  match io.isEnabled with
  | .error e =>
      (modifyResult rc step.id fun r =>
        { r with conclusion := StepStatus.failure, outcome := StepStatus.failure }, some e)
  | .ok false =>
      (modifyResult rc step.id fun r =>
        { r with conclusion := StepStatus.skipped, outcome := StepStatus.skipped }, none)
  | .ok true =>
    match io.setupEnv with
    | some e => (rc, some e)
    | none =>
      let bodyStep : StepRC × Option String :=
        match io.body with
        | none => (rc, none)
        | some e =>
          let rc := modifyResult rc step.id fun r => { r with outcome := StepStatus.failure }
          if step.continueOnError then
            (modifyResult rc step.id fun r => { r with conclusion := StepStatus.success }, none)
          else
            (modifyResult rc step.id fun r => { r with conclusion := StepStatus.failure }, some e)
      let orgerr := bodyStep.2
      match io.readOutput with
      | .error re => (bodyStep.1, some re)
      | .ok pairs =>
          let rc := publishOutputs pairs bodyStep.1
          match orgerr with
          | some e => (rc, some e)
          | none => (rc, none)

/-- Look up one output value of the step recorded under `id`. -/
def stepOutput (rc : StepRC) (id k : String) : Option String :=
  match rc.stepResults id with
  | some r => r.outputs k
  | none => none

theorem publishOutputs_cons (kv : String × String) (rest : List (String × String))
    (rc : StepRC) :
    publishOutputs (kv :: rest) rc = publishOutputs rest (setOutput rc kv.1 kv.2) := rfl

theorem setOutput_currentStep (rc : StepRC) (k v : String) :
    (setOutput rc k v).currentStep = rc.currentStep := rfl

theorem setOutput_statuses (rc : StepRC) (k v id : String) :
    ((setOutput rc k v).stepResults id).map (fun r => (r.outcome, r.conclusion))
      = (rc.stepResults id).map (fun r => (r.outcome, r.conclusion)) := by
  unfold setOutput modifyResult
  by_cases h : id = rc.currentStep
  · simp only [h, if_pos rfl]
    cases rc.stepResults rc.currentStep <;> rfl
  · simp only [if_neg h]

theorem publishOutputs_statuses (pairs : List (String × String)) (rc : StepRC)
    (id : String) :
    ((publishOutputs pairs rc).stepResults id).map (fun r => (r.outcome, r.conclusion))
      = (rc.stepResults id).map (fun r => (r.outcome, r.conclusion)) := by
  induction pairs generalizing rc with
  | nil => rfl
  | cons kv rest ih =>
      rw [publishOutputs_cons, ih, setOutput_statuses]

theorem setOutput_stepOutput (rc : StepRC) (k v k' : String) :
    stepOutput (setOutput rc k v) rc.currentStep k'
      = if (rc.stepResults rc.currentStep).isSome ∧ k' = k then some v
        else stepOutput rc rc.currentStep k' := by
  unfold setOutput modifyResult stepOutput updateS
  simp only [if_pos rfl]
  cases hs : rc.stepResults rc.currentStep with
  | none => simp [hs]
  | some r =>
      simp only [hs, Option.map_some, Option.isSome_some, true_and]
      by_cases hk : k' = k <;> simp [hk]

theorem setOutput_isSome (rc : StepRC) (k v : String) :
    ((setOutput rc k v).stepResults rc.currentStep).isSome
      = (rc.stepResults rc.currentStep).isSome := by
  unfold setOutput modifyResult
  simp only [if_pos rfl]
  cases rc.stepResults rc.currentStep <;> rfl

theorem publishOutputs_lookup_not_mem (pairs : List (String × String)) (rc : StepRC)
    (k : String) (hk : k ∉ pairs.map Prod.fst) :
    stepOutput (publishOutputs pairs rc) rc.currentStep k
      = stepOutput rc rc.currentStep k := by
  induction pairs generalizing rc with
  | nil => rfl
  | cons kv rest ih =>
      simp only [List.map_cons, List.mem_cons, not_or] at hk
      rw [publishOutputs_cons]
      have hcs := setOutput_currentStep rc kv.1 kv.2
      calc stepOutput (publishOutputs rest (setOutput rc kv.1 kv.2)) rc.currentStep k
          = stepOutput (publishOutputs rest (setOutput rc kv.1 kv.2))
              (setOutput rc kv.1 kv.2).currentStep k := by rw [hcs]
        _ = stepOutput (setOutput rc kv.1 kv.2) (setOutput rc kv.1 kv.2).currentStep k :=
              ih (setOutput rc kv.1 kv.2) hk.2
        _ = stepOutput rc rc.currentStep k := by
              rw [hcs, setOutput_stepOutput]
              simp [hk.1]

theorem publishOutputs_lookup_mem (pairs : List (String × String)) (rc : StepRC)
    (hnd : (pairs.map Prod.fst).Nodup) (k v : String) (hkv : (k, v) ∈ pairs)
    (hsome : (rc.stepResults rc.currentStep).isSome = true) :
    stepOutput (publishOutputs pairs rc) rc.currentStep k = some v := by
  induction pairs generalizing rc with
  | nil => cases hkv
  | cons kv rest ih =>
      simp only [List.map_cons, List.nodup_cons] at hnd
      rw [publishOutputs_cons]
      have hcs := setOutput_currentStep rc kv.1 kv.2
      rcases List.mem_cons.mp hkv with heq | hmem
      · have hk1 : kv.1 = k := by rw [← heq]
        have hk2 : kv.2 = v := by rw [← heq]
        have hnot : k ∉ rest.map Prod.fst := hk1 ▸ hnd.1
        calc stepOutput (publishOutputs rest (setOutput rc kv.1 kv.2)) rc.currentStep k
            = stepOutput (publishOutputs rest (setOutput rc kv.1 kv.2))
                (setOutput rc kv.1 kv.2).currentStep k := by rw [hcs]
          _ = stepOutput (setOutput rc kv.1 kv.2)
                (setOutput rc kv.1 kv.2).currentStep k :=
                publishOutputs_lookup_not_mem rest (setOutput rc kv.1 kv.2) k
                  (by rw [hcs] at *; exact hnot)
          _ = some v := by
                rw [hcs, setOutput_stepOutput, if_pos ⟨hsome, hk1.symm⟩, hk2]
      · have hsome' : ((setOutput rc kv.1 kv.2).stepResults
            (setOutput rc kv.1 kv.2).currentStep).isSome = true := by
          rw [hcs, setOutput_isSome]; exact hsome
        calc stepOutput (publishOutputs rest (setOutput rc kv.1 kv.2)) rc.currentStep k
            = stepOutput (publishOutputs rest (setOutput rc kv.1 kv.2))
                (setOutput rc kv.1 kv.2).currentStep k := by rw [hcs]
          _ = some v := ih (setOutput rc kv.1 kv.2) hnd.2 hmem hsome'

theorem statuses_outcome {x y : Option StepResult}
    (h : x.map (fun r => (r.outcome, r.conclusion))
        = y.map (fun r => (r.outcome, r.conclusion))) :
    x.map (fun r => r.outcome) = y.map (fun r => r.outcome) := by
  cases x <;> cases y <;> simp_all

theorem statuses_conclusion {x y : Option StepResult}
    (h : x.map (fun r => (r.outcome, r.conclusion))
        = y.map (fun r => (r.outcome, r.conclusion))) :
    x.map (fun r => r.conclusion) = y.map (fun r => r.conclusion) := by
  cases x <;> cases y <;> simp_all

theorem publishOutputs_outcome (pairs : List (String × String)) (rc : StepRC)
    (id : String) :
    ((publishOutputs pairs rc).stepResults id).map (fun r => r.outcome)
      = (rc.stepResults id).map (fun r => r.outcome) :=
  statuses_outcome (publishOutputs_statuses pairs rc id)

theorem publishOutputs_conclusion (pairs : List (String × String)) (rc : StepRC)
    (id : String) :
    ((publishOutputs pairs rc).stepResults id).map (fun r => r.conclusion)
      = (rc.stepResults id).map (fun r => r.conclusion) :=
  statuses_conclusion (publishOutputs_statuses pairs rc id)

/-- C1: for a step whose body fails (and whose output-file read-back succeeds,
the case where a read error supersedes being covered by the output-publication
rule): the recorded `Outcome` is `Failure`; with continue-on-error the
`Conclusion` is forced to `Success` and the executor returns success, so the
enclosing pipeline advances; without it the `Conclusion` is `Failure` and the
executor returns exactly the body's error, halting the enclosing pipeline
scope. -/
theorem newStepExecutor_body_failure (step : Step) (io : StepIO) (rc : StepRC)
    (e : String) (pairs : List (String × String))
    (hen : io.isEnabled = Except.ok true) (hsetup : io.setupEnv = none)
    (hbody : io.body = some e) (hread : io.readOutput = Except.ok pairs) :
    (((newStepExecutor step io rc).1.stepResults step.id).map (fun r => r.outcome)
        = some StepStatus.failure) ∧
    (step.continueOnError = true →
      ((newStepExecutor step io rc).1.stepResults step.id).map (fun r => r.conclusion)
          = some StepStatus.success ∧ (newStepExecutor step io rc).2 = none) ∧
    (step.continueOnError = false →
      ((newStepExecutor step io rc).1.stepResults step.id).map (fun r => r.conclusion)
          = some StepStatus.failure ∧ (newStepExecutor step io rc).2 = some e) := by
  obtain ⟨ien, iset, ibody, iread⟩ := io
  simp only at hen hsetup hbody hread
  subst hen hsetup hbody hread
  by_cases hco : step.continueOnError
  · refine ⟨?_, ?_, ?_⟩
    · simp only [newStepExecutor, hco, if_true]
      rw [publishOutputs_outcome]
      simp [modifyResult]
    · intro _
      constructor
      · simp only [newStepExecutor, hco, if_true]
        rw [publishOutputs_conclusion]
        simp [modifyResult]
      · simp [newStepExecutor, hco]
    · intro hfalse
      rw [hco] at hfalse
      cases hfalse
  · simp only [Bool.not_eq_true] at hco
    refine ⟨?_, ?_, ?_⟩
    · simp only [newStepExecutor, hco, if_false, Bool.false_eq_true]
      rw [publishOutputs_outcome]
      simp [modifyResult]
    · intro htrue
      rw [hco] at htrue
      cases htrue
    · intro _
      constructor
      · simp only [newStepExecutor, hco, if_false, Bool.false_eq_true]
        rw [publishOutputs_conclusion]
        simp [modifyResult]
      · simp [newStepExecutor, hco]

/-- C2: for an enabled step whose environment setup succeeds (the path on which
the step body runs), whether the body succeeds or fails: when the output file
reads back as `pairs`, every parsed key/value pair is published to that step's
output mapping; when the read fails, the read error is the executor's returned
error, taking priority over any previously recorded step failure. -/
theorem newStepExecutor_outputs (step : Step) (io : StepIO) (rc : StepRC)
    (hen : io.isEnabled = Except.ok true) (hsetup : io.setupEnv = none) :
    (∀ pairs, io.readOutput = Except.ok pairs → (pairs.map Prod.fst).Nodup →
      ∀ k v, (k, v) ∈ pairs →
        stepOutput (newStepExecutor step io rc).1 step.id k = some v) ∧
    (∀ re, io.readOutput = Except.error re → (newStepExecutor step io rc).2 = some re) := by
  obtain ⟨ien, iset, ibody, iread⟩ := io
  simp only at hen hsetup
  subst hen hsetup
  constructor
  · intro pairs hread hnd k v hkv
    simp only at hread
    subst hread
    cases ibody with
    | none =>
        simp only [newStepExecutor]
        exact publishOutputs_lookup_mem pairs _ hnd k v hkv (by simp)
    | some eb =>
        by_cases hco : step.continueOnError
        · simp only [newStepExecutor, hco, if_true]
          exact publishOutputs_lookup_mem pairs _ hnd k v hkv (by simp [modifyResult])
        · simp only [Bool.not_eq_true] at hco
          simp only [newStepExecutor, hco, if_false, Bool.false_eq_true]
          exact publishOutputs_lookup_mem pairs _ hnd k v hkv (by simp [modifyResult])
  · intro re hread
    simp only at hread
    subst hread
    cases ibody with
    | none => simp [newStepExecutor]
    | some eb =>
        by_cases hco : step.continueOnError <;>
          simp [newStepExecutor, hco]

/-- Shared initial `RunContext` state for the step-executor witnesses:
no current step, no recorded results. -/
def rcStep0 : StepRC := ⟨"", fun _ => none⟩

/-- Witness for C1: a failing step (`body` error `"boom"`) without
continue-on-error records `Outcome = Failure` and the executor returns the
body's error. -/
theorem newStepExecutor_body_failure_witness :
    ((newStepExecutor ⟨"one", false⟩ ⟨Except.ok true, none, some "boom", Except.ok []⟩
        rcStep0).1.stepResults "one").map (fun r => r.outcome)
      = some StepStatus.failure
    ∧ (newStepExecutor ⟨"one", false⟩ ⟨Except.ok true, none, some "boom", Except.ok []⟩
        rcStep0).2 = some "boom" := by
  have h := newStepExecutor_body_failure ⟨"one", false⟩
    ⟨Except.ok true, none, some "boom", Except.ok []⟩ rcStep0 "boom" [] rfl rfl rfl rfl
  exact ⟨h.1, (h.2.2 rfl).2⟩

/-- Witness for C2: a failing step that wrote two pairs to its output file still
has both values retrievable from its output mapping afterwards. -/
theorem newStepExecutor_outputs_witness :
    stepOutput (newStepExecutor ⟨"two", false⟩
        ⟨Except.ok true, none, some "boom", Except.ok [("a", "1"), ("b", "2")]⟩
        rcStep0).1 "two" "a" = some "1"
    ∧ stepOutput (newStepExecutor ⟨"two", false⟩
        ⟨Except.ok true, none, some "boom", Except.ok [("a", "1"), ("b", "2")]⟩
        rcStep0).1 "two" "b" = some "2" := by
  have h := newStepExecutor_outputs ⟨"two", false⟩
    ⟨Except.ok true, none, some "boom", Except.ok [("a", "1"), ("b", "2")]⟩ rcStep0 rfl rfl
  exact ⟨h.1 _ rfl (by decide) "a" "1" (by decide),
         h.1 _ rfl (by decide) "b" "2" (by decide)⟩

/-! ## Job teardown: `RunContext.Executor` (run_context.go lines 367-381) -/

/-- Observable outcome of one run of `RunContext.Executor()`: whether the
`Finally` teardown stage ran, whether it invoked `stopJobContainer` and
`JobContainer.Close`, the stop error that was only logged, and the error the
whole pipeline returned. -/
structure ExecOutcome where
  teardownRan : Bool
  stopRan : Bool
  closeRan : Bool
  loggedStopError : Option String
  result : Option String
deriving DecidableEq, Repr

/-- `RunContext.Executor()` from `run_context.go` (lines 367-381), with the
step pipeline `newJobExecutor`, the enablement check `rc.isEnabled`, and the
container driver results abstracted as parameters (`jobExec`, `enabled`,
`stopRes`, `closeRes`).  The `Finally` and `If` combinators (pkg/common, not
among the sources) are modelled from the spec §4.1: `Cleanup(u, c)` always runs
`c` after `u` completes or fails; if `u` failed, `u`'s error wins even if `c`
also fails; if `u` succeeded but `c` failed, `c`'s error is surfaced;
`Guard(p, u)` runs `u` only if `p` holds.  The teardown closure (lines 368-379)
runs only when the container handle is non-nil; under `AutoRemove` it calls
`stopJobContainer`, logging (never returning) its error, and then returns the
result of `JobContainer.Close()`. -/
def Executor (enabled hasContainer autoRemove : Bool)
    (jobExec stopRes closeRes : Option String) : ExecOutcome :=
  if enabled then
    let teardownRes : Option String := if hasContainer then closeRes else none
    { teardownRan := true
      stopRan := hasContainer && autoRemove
      closeRan := hasContainer
      loggedStopError := if hasContainer && autoRemove then stopRes else none
      result := match jobExec with
        | some e => some e
        | none => teardownRes }
  else
    { teardownRan := false, stopRan := false, closeRan := false
      loggedStopError := none, result := none }

/-- C3 (amended): for an enabled job with a non-nil container handle, the final
teardown stage runs whether the step pipeline succeeded or failed, and always
closes the container; when auto-removal is configured it stops and then closes
it; a `stopJobContainer` error is logged and never propagated (the result is
independent of it); and a step-pipeline failure is never masked by teardown.
However — contrary to the original claim — when the step pipeline succeeded,
the error of the final `Close` IS returned as the job's result. -/
theorem Executor_teardown (enabled hasContainer autoRemove : Bool)
    (jobExec stopRes closeRes : Option String)
    (hen : enabled = true) (hc : hasContainer = true) :
    ((Executor enabled hasContainer autoRemove jobExec stopRes closeRes).teardownRan
        = true) ∧
    ((Executor enabled hasContainer autoRemove jobExec stopRes closeRes).closeRan
        = true) ∧
    (autoRemove = true →
      (Executor enabled hasContainer autoRemove jobExec stopRes closeRes).stopRan = true) ∧
    (∀ stopRes',
      (Executor enabled hasContainer autoRemove jobExec stopRes' closeRes).result
        = (Executor enabled hasContainer autoRemove jobExec stopRes closeRes).result) ∧
    (∀ e, jobExec = some e →
      (Executor enabled hasContainer autoRemove jobExec stopRes closeRes).result = some e) ∧
    (jobExec = none →
      (Executor enabled hasContainer autoRemove jobExec stopRes closeRes).result
        = closeRes) := by
  subst hen hc
  refine ⟨rfl, rfl, ?_, ?_, ?_, ?_⟩
  · intro ha
    subst ha
    rfl
  · intro stopRes'
    rfl
  · intro e he
    subst he
    rfl
  · intro he
    subst he
    rfl

/-- Counterexample to C3 as stated: with an enabled job, a non-nil container
handle, auto-removal configured, a successful step pipeline, a successful stop
and a failing `Close`, the teardown error IS propagated as the job's result
(the claim asserts the result would stay `none`, the pipeline's outcome). -/
theorem Executor_teardown_counterexample :
    (Executor true true true none none (some "close failed")).result
        = some "close failed"
      ∧ (Executor true true true none none (some "close failed")).result ≠ none := by
  constructor
  · rfl
  · intro h
    cases h

/-- Witness for C3 (amended) at a concrete input: enabled job, container
present, auto-removal on, failing step pipeline — teardown runs, both stop and
close run, and the pipeline's error is returned unmasked. -/
theorem Executor_teardown_witness :
    (Executor true true true (some "step failed") (some "stop failed") none).teardownRan
        = true
      ∧ (Executor true true true (some "step failed") (some "stop failed") none).stopRan
        = true
      ∧ (Executor true true true (some "step failed") (some "stop failed") none).result
        = some "step failed" := by
  have h := Executor_teardown true true true (some "step failed") (some "stop failed")
    none rfl rfl
  exact ⟨h.1, h.2.2.1 rfl, h.2.2.2.2.1 "step failed" rfl⟩

/-! ## Composite expansion: `CompositeExecutor` (run_context.go lines 384-410) -/

/-- One inner step of a composite action, abstracted for `CompositeExecutor`:
its declared `ID` (`""` = none declared), the result of running its step
executor (`some e` = failure), and the cancellation error, if any, observed
from the context (`ctx.Err()`) right after it. -/
structure CompositeStep where
  id : String
  stepErr : Option String
  ctxErr : Option String

/-- The positional-id assignment of `CompositeExecutor` (lines 387-390): an
inner step without a declared id gets the stringified index. -/
def compositeIds (i : Nat) : List CompositeStep → List CompositeStep
  | [] => []
  | s :: rest =>
      { s with id := if s.id = "" then toString i else s.id } :: compositeIds (i + 1) rest

/-- The error a wrapped composite step records into the job-error container
(lines 394-401): the step's own error if it failed, else the observed
cancellation error, else nothing. -/
def pickError (s : CompositeStep) : Option String :=
  match s.stepErr with
  | some e => some e
  | none => s.ctxErr

/-- The sequenced wrapped step executors of `CompositeExecutor` (lines
393-403) threaded through the job-error container, with the
`common.SetJobError` / `common.JobError` / `NewPipelineExecutor` machinery
(pkg/common, not among the sources) modelled from the spec: a step failure, or
an externally observed cancellation, is recorded as the job's error, the
wrapper itself returns success so the pipeline always advances, and the
terminal `common.JobError` stage surfaces the recorded job error.  Returns the
ids of the steps that were run, in order, together with the final result. -/
def runCompositeSteps : List CompositeStep → Option String → List String × Option String
  | [], jobError => ([], jobError)
  | s :: rest, jobError =>
      let jobError' := match pickError s with
        | some e => some e
        | none => jobError
      let t := runCompositeSteps rest jobError'
      (s.id :: t.1, t.2)

/-- `CompositeExecutor` (lines 384-410): assign positional ids, run every
wrapped step over a fresh job-error container (`WithJobErrorContainer`), and
surface the recorded job error at the end. -/
def CompositeExecutor (steps : List CompositeStep) : List String × Option String :=
  runCompositeSteps (compositeIds 0 steps) none

/-- The last failure (step error, or observed cancellation) among a composite
action's steps — what the job-error container holds after all steps ran. -/
def lastRecordedError (steps : List CompositeStep) : Option String :=
  (steps.filterMap pickError).getLast?

theorem runCompositeSteps_ids (steps : List CompositeStep) :
    ∀ (i : Nat) (je : Option String),
      (runCompositeSteps (compositeIds i steps) je).1
        = (steps.enumFrom i).map (fun p => if p.2.id = "" then toString p.1 else p.2.id) := by
  induction steps with
  | nil => intro i je; rfl
  | cons s rest ih =>
      intro i je
      simp only [compositeIds, runCompositeSteps, List.enumFrom_cons, List.map_cons]
      rw [ih (i + 1)]

theorem runCompositeSteps_result (steps : List CompositeStep) :
    ∀ je : Option String,
      (runCompositeSteps steps je).2
        = match (steps.filterMap pickError).getLast? with
          | some e => some e
          | none => je := by
  induction steps with
  | nil => intro je; rfl
  | cons s rest ih =>
      intro je
      cases hp : pickError s with
      | none =>
          simp only [runCompositeSteps, hp, List.filterMap_cons_none hp]
          exact ih je
      | some e =>
          simp only [runCompositeSteps, hp, List.filterMap_cons_some hp]
          rw [ih (some e)]
          cases hL : (rest.filterMap pickError) with
          | nil => simp
          | cons x xs =>
              simp only [List.getLast?_cons_cons]
              cases hx : (x :: xs).getLast? with
              | none => simp at hx
              | some y => rfl

theorem compositeIds_pickError (steps : List CompositeStep) (i : Nat) :
    (compositeIds i steps).filterMap pickError = steps.filterMap pickError := by
  induction steps generalizing i with
  | nil => rfl
  | cons s rest ih =>
      simp only [compositeIds, List.filterMap_cons]
      have hp : pickError { s with id := if s.id = "" then toString i else s.id }
          = pickError s := rfl
      rw [hp, ih (i + 1)]

/-- C5: `CompositeExecutor` assigns each inner step without a declared id the
stringified positional index as its id; every step is run, in order, even when
earlier steps fail or a cancellation is observed (the executed-id list always
covers all the steps); and the terminal stage returns the recorded job error —
the last step failure or observed cancellation, or success if there was
none. -/
theorem CompositeExecutor_spec (steps : List CompositeStep) :
    ((CompositeExecutor steps).1
        = steps.enum.map (fun p => if p.2.id = "" then toString p.1 else p.2.id)) ∧
    ((CompositeExecutor steps).1.length = steps.length) ∧
    ((CompositeExecutor steps).2
        = match lastRecordedError steps with
          | some e => some e
          | none => none) := by
  have hids := runCompositeSteps_ids steps 0 none
  refine ⟨hids, ?_, ?_⟩
  · rw [CompositeExecutor, hids]
    rw [List.length_map, List.enumFrom_length]
  · rw [CompositeExecutor, runCompositeSteps_result, compositeIds_pickError]
    rfl

/-- Witness for C5 at a concrete composite body: three steps, the middle one
undeclared-id and failing, the last observing a cancellation — ids are
`["a", "1", "c"]`, all three steps run, and the job error is the last recorded
one (the cancellation). -/
theorem CompositeExecutor_spec_witness :
    (CompositeExecutor
        [⟨"a", none, none⟩, ⟨"", some "boom", none⟩, ⟨"c", none, some "cancelled"⟩]).1
      = ["a", "1", "c"]
    ∧ (CompositeExecutor
        [⟨"a", none, none⟩, ⟨"", some "boom", none⟩, ⟨"c", none, some "cancelled"⟩]).2
      = some "cancelled" := by
  have h := CompositeExecutor_spec
    [⟨"a", none, none⟩, ⟨"", some "boom", none⟩, ⟨"c", none, some "cancelled"⟩]
  refine ⟨?_, ?_⟩
  · rw [h.1]
    rfl
  · rw [h.2.2]
    rfl

/-! ## Container/volume teardown: `stopJobContainer` (run_context.go lines
296-305) and `NewDockerVolumeRemoveExecutor` (docker volume executor) -/

/-- The Docker daemon state the teardown acts on: whether the job container
still exists, and the names of the existing volumes. -/
structure DockerWorld where
  containerExists : Bool
  volumes : List String
deriving DecidableEq, Repr

/-- The Docker driver's possible failures: the error (if any) yielded by
removing the job container while it exists, and the error (if any) yielded by
`cli.VolumeRemove` for a given existing volume. -/
structure DockerIO where
  containerRemoveErr : Option String
  volumeRemoveErr : String → Option String

/-- A pipeline unit over the Docker world: transforms the world and returns a
Go error value. -/
abbrev DockerExec := DockerWorld → DockerWorld × Option String

/-- Modelled from the spec (§4.1 Sequence): `common.Executor.Then` — run the
units in order; the first failure aborts the remaining unit and is the overall
result. -/
def thenExec (u v : DockerExec) : DockerExec := fun w =>
  match u w with
  | (w1, some e) => (w1, some e)
  | (w1, none) => v w1

/-- Modelled from the spec (§4.1 Cleanup): `common.Executor.Finally` — always
run the cleanup after the unit completes or fails; if the unit failed, its
error wins even if the cleanup also fails; if the unit succeeded but the
cleanup failed, the cleanup's error is surfaced. -/
def finallyExec (u c : DockerExec) : DockerExec := fun w =>
  match u w with
  | (w1, some e) => ((c w1).1, some e)
  | (w1, none) => c w1

/-- Modelled from the spec (§4.1 Guard): `common.Executor.If` — run the unit
only if the predicate holds at invocation time; otherwise trivially succeed. -/
def ifExec (cond : Bool) (u : DockerExec) : DockerExec := fun w =>
  if cond then u w else (w, none)

/-- Modelled from the spec: `JobContainer.Remove()` (container driver, not
among the sources) removes the container when it exists and succeeds trivially
when it is already gone — as required by "Stop is idempotent: invoking it twice
on an already-removed container/volume set never errors". -/
def containerRemove (io : DockerIO) : DockerExec := fun w =>
  if w.containerExists then
    match io.containerRemoveErr with
    | some e => (w, some e)
    | none => ({ w with containerExists := false }, none)
  else (w, none)

/-- `removeExecutor` from the docker volume executor (part_000 lines 110-127):
invoke `cli.VolumeRemove(ctx, volume, force)`.  (The dry-run short-circuit is
not modelled.) -/
def removeExecutor (volume : String) (force : Bool) (io : DockerIO) : DockerExec :=
  fun w =>
    match io.volumeRemoveErr volume with
    | some e => (w, some e)
    | none => ({ w with volumes := w.volumes.erase volume }, none)

/-- `NewDockerVolumeRemoveExecutor` from the docker volume executor (part_000
lines 86-108): list the volumes; if the requested volume is in the list, remove
it via `removeExecutor`; a volume that is not found is a success ("Volume not
found - do nothing"). -/
def NewDockerVolumeRemoveExecutor (volume : String) (force : Bool) (io : DockerIO) :
    DockerExec := fun w =>
  if volume ∈ w.volumes then removeExecutor volume force io w else (w, none)

/-- The volume-removal chain of `stopJobContainer` (line 301): remove the job's
main volume, `Finally` remove its "-env" volume. -/
def volumesChain (name : String) (io : DockerIO) : DockerExec :=
  finallyExec (NewDockerVolumeRemoveExecutor name false io)
    (NewDockerVolumeRemoveExecutor (name ++ "-env") false io)

/-- `stopJobContainer` from run_context.go (lines 296-305): when the container
handle is non-nil and reuse is not configured, remove the container, `Then`
remove the job's main volume, `Finally` remove its "-env" volume, the volume
chain guarded by `If !rc.Local`; otherwise do nothing. -/
def stopJobContainer (hasContainer reuse isLocal : Bool) (name : String)
    (io : DockerIO) : DockerExec := fun w =>
  if hasContainer && !reuse then
    thenExec (containerRemove io) (ifExec (!isLocal) (volumesChain name io)) w
  else (w, none)

theorem containerRemove_ok (io : DockerIO) (w : DockerWorld)
    (h : io.containerRemoveErr = none) :
    containerRemove io w = ({ containerExists := false, volumes := w.volumes }, none) := by
  obtain ⟨ce, vols⟩ := w
  cases ce <;> simp [containerRemove, h]

theorem ndvre_not_mem (v : String) (f : Bool) (io : DockerIO) (w : DockerWorld)
    (h : v ∉ w.volumes) :
    NewDockerVolumeRemoveExecutor v f io w = (w, none) := by
  simp [NewDockerVolumeRemoveExecutor, h]

theorem ndvre_containerExists (v : String) (f : Bool) (io : DockerIO) (w : DockerWorld) :
    (NewDockerVolumeRemoveExecutor v f io w).1.containerExists = w.containerExists := by
  unfold NewDockerVolumeRemoveExecutor removeExecutor
  by_cases h : v ∈ w.volumes
  · simp only [h, if_true]
    cases io.volumeRemoveErr v <;> rfl
  · simp [h]

theorem ndvre_subset (v : String) (f : Bool) (io : DockerIO) (w : DockerWorld) :
    (NewDockerVolumeRemoveExecutor v f io w).1.volumes ⊆ w.volumes := by
  unfold NewDockerVolumeRemoveExecutor removeExecutor
  by_cases h : v ∈ w.volumes
  · simp only [h, if_true]
    cases io.volumeRemoveErr v with
    | some e => exact fun a ha => ha
    | none => exact fun a ha => List.mem_of_mem_erase ha
  · simp [h]

theorem ndvre_nodup (v : String) (f : Bool) (io : DockerIO) (w : DockerWorld)
    (h : w.volumes.Nodup) :
    (NewDockerVolumeRemoveExecutor v f io w).1.volumes.Nodup := by
  unfold NewDockerVolumeRemoveExecutor removeExecutor
  by_cases hm : v ∈ w.volumes
  · simp only [hm, if_true]
    cases io.volumeRemoveErr v with
    | some e => exact h
    | none => exact h.erase v
  · simpa [hm] using h

theorem ndvre_removes (v : String) (f : Bool) (io : DockerIO) (w : DockerWorld)
    (hnd : w.volumes.Nodup) (hok : io.volumeRemoveErr v = none) :
    v ∉ (NewDockerVolumeRemoveExecutor v f io w).1.volumes := by
  unfold NewDockerVolumeRemoveExecutor removeExecutor
  by_cases hm : v ∈ w.volumes
  · simp only [hm, if_true, hok]
    exact hnd.not_mem_erase
  · simp [hm]

theorem ndvre_ok_mono (v : String) (f : Bool) (io : DockerIO) (w w' : DockerWorld)
    (hok : (NewDockerVolumeRemoveExecutor v f io w).2 = none)
    (hsub : w'.volumes ⊆ w.volumes) :
    (NewDockerVolumeRemoveExecutor v f io w').2 = none := by
  unfold NewDockerVolumeRemoveExecutor removeExecutor at *
  by_cases hm : v ∈ w'.volumes
  · have hmw : v ∈ w.volumes := hsub hm
    simp only [hmw, if_true] at hok
    simp only [hm, if_true]
    cases hv : io.volumeRemoveErr v with
    | some e => rw [hv] at hok; cases hok
    | none => rfl
  · simp [hm]

theorem ndvre_ok_cases (v : String) (f : Bool) (io : DockerIO) (w : DockerWorld)
    (hok : (NewDockerVolumeRemoveExecutor v f io w).2 = none) :
    v ∉ w.volumes ∨ io.volumeRemoveErr v = none := by
  by_cases hm : v ∈ w.volumes
  · right
    unfold NewDockerVolumeRemoveExecutor removeExecutor at hok
    simp only [hm, if_true] at hok
    cases hv : io.volumeRemoveErr v with
    | some e => rw [hv] at hok; cases hok
    | none => rfl
  · exact Or.inl hm

theorem ndvre_ok_of_noerr (v : String) (f : Bool) (io : DockerIO) (w : DockerWorld)
    (h : io.volumeRemoveErr v = none) :
    (NewDockerVolumeRemoveExecutor v f io w).2 = none := by
  unfold NewDockerVolumeRemoveExecutor removeExecutor
  by_cases hm : v ∈ w.volumes <;> simp [hm, h]

theorem ndvre_mem_iff (a v : String) (f : Bool) (io : DockerIO) (w : DockerWorld)
    (hne : a ≠ v) :
    a ∈ (NewDockerVolumeRemoveExecutor v f io w).1.volumes ↔ a ∈ w.volumes := by
  unfold NewDockerVolumeRemoveExecutor removeExecutor
  by_cases hm : v ∈ w.volumes
  · simp only [hm, if_true]
    cases io.volumeRemoveErr v with
    | some e => rfl
    | none => simp [List.mem_erase_of_ne hne]
  · simp [hm]

theorem append_env_ne (s : String) : s ++ "-env" ≠ s := by
  intro h
  have hl := congrArg String.length h
  rw [String.length_append] at hl
  have h4 : ("-env" : String).length = 4 := rfl
  omega

theorem volumesChain_containerExists (name : String) (io : DockerIO) (w : DockerWorld) :
    (volumesChain name io w).1.containerExists = w.containerExists := by
  have h1 := ndvre_containerExists name false io w
  unfold volumesChain finallyExec
  rcases hu : NewDockerVolumeRemoveExecutor name false io w with ⟨wa, ra⟩
  rw [hu] at h1
  cases ra with
  | none =>
      simp only
      rw [ndvre_containerExists]
      exact h1
  | some e =>
      simp only
      rw [ndvre_containerExists]
      exact h1

theorem volumesChain_subset (name : String) (io : DockerIO) (w : DockerWorld) :
    (volumesChain name io w).1.volumes ⊆ w.volumes := by
  have h1 := ndvre_subset name false io w
  unfold volumesChain finallyExec
  rcases hu : NewDockerVolumeRemoveExecutor name false io w with ⟨wa, ra⟩
  rw [hu] at h1
  cases ra with
  | none =>
      simp only
      exact fun a ha => h1 (ndvre_subset _ _ _ _ ha)
  | some e =>
      simp only
      exact fun a ha => h1 (ndvre_subset _ _ _ _ ha)

theorem volumesChain_ok_mono (name : String) (io : DockerIO) (w w' : DockerWorld)
    (hok : (volumesChain name io w).2 = none) (hsub : w'.volumes ⊆ w.volumes) :
    (volumesChain name io w').2 = none := by
  unfold volumesChain finallyExec at *
  rcases hu : NewDockerVolumeRemoveExecutor name false io w with ⟨wa, ra⟩
  rw [hu] at hok
  cases ra with
  | some e => cases hok
  | none =>
      simp only at hok
      have hmain : (NewDockerVolumeRemoveExecutor name false io w).2 = none := by
        rw [hu]
      rcases hu' : NewDockerVolumeRemoveExecutor name false io w' with ⟨wa', ra'⟩
      have hmain' := ndvre_ok_mono name false io w w' hmain hsub
      rw [hu'] at hmain'
      simp only at hmain'
      subst hmain'
      simp only
      rcases ndvre_ok_cases (name ++ "-env") false io wa hok with hnm | herr
      · have hiff := ndvre_mem_iff (name ++ "-env") name false io w (append_env_ne name)
        rw [hu] at hiff
        have hnw : name ++ "-env" ∉ w.volumes := fun hmem => hnm (hiff.mpr hmem)
        have hnw' : name ++ "-env" ∉ wa'.volumes := by
          intro hmem
          have h2 : name ++ "-env" ∈ w'.volumes := by
            have := ndvre_subset name false io w'
            rw [hu'] at this
            exact this hmem
          exact hnw (hsub h2)
        rw [ndvre_not_mem _ _ _ _ hnw']
      · exact ndvre_ok_of_noerr _ _ _ _ herr

theorem thenExec_none {u v : DockerExec} {w w1 : DockerWorld}
    (h : u w = (w1, none)) : thenExec u v w = v w1 := by
  unfold thenExec
  rw [h]

theorem thenExec_some {u v : DockerExec} {w w1 : DockerWorld} {e : String}
    (h : u w = (w1, some e)) : thenExec u v w = (w1, some e) := by
  unfold thenExec
  rw [h]

theorem finallyExec_none {u c : DockerExec} {w w1 : DockerWorld}
    (h : u w = (w1, none)) : finallyExec u c w = c w1 := by
  unfold finallyExec
  rw [h]

theorem finallyExec_some {u c : DockerExec} {w w1 : DockerWorld} {e : String}
    (h : u w = (w1, some e)) : finallyExec u c w = ((c w1).1, some e) := by
  unfold finallyExec
  rw [h]

theorem ifExec_true (u : DockerExec) (w : DockerWorld) : ifExec true u w = u w := rfl

theorem ifExec_false (u : DockerExec) (w : DockerWorld) : ifExec false u w = (w, none) := rfl

theorem containerRemove_none_inv (io : DockerIO) (w w1 : DockerWorld)
    (h : containerRemove io w = (w1, none)) :
    w1.containerExists = false ∧ w1.volumes = w.volumes := by
  unfold containerRemove at h
  cases hb : w.containerExists with
  | false =>
      rw [hb] at h
      simp only [Bool.false_eq_true, if_false, Prod.mk.injEq] at h
      rw [← h.1]
      exact ⟨hb, rfl⟩
  | true =>
      rw [hb] at h
      simp only [if_true] at h
      cases hv : io.containerRemoveErr with
      | some e =>
          rw [hv] at h
          simp only [Prod.mk.injEq] at h
          cases h.2
      | none =>
          rw [hv] at h
          simp only [Prod.mk.injEq] at h
          rw [← h.1]
          exact ⟨rfl, rfl⟩

theorem containerRemove_notExists (io : DockerIO) (w : DockerWorld)
    (h : w.containerExists = false) : containerRemove io w = (w, none) := by
  unfold containerRemove
  rw [h]
  simp

/-- C4: when the container handle is non-nil and reuse is not configured,
`stopJobContainer` removes the job container; when additionally not in
local/host mode it also removes the job's two named volumes (main and "-env");
volume removal returns success when the volume does not exist; removal of the
"-env" volume is attempted even when removal of the main volume fails (whose
error wins); and after a successful Stop a second invocation — on the now
already-removed container/volume set — never returns an error. -/
theorem stopJobContainer_spec (hasC reuse isLocal : Bool) (name : String)
    (io : DockerIO) (w : DockerWorld) :
    (hasC = true → reuse = false → io.containerRemoveErr = none →
      (stopJobContainer hasC reuse isLocal name io w).1.containerExists = false) ∧
    (hasC = true → reuse = false → isLocal = false → io.containerRemoveErr = none →
      w.volumes.Nodup → io.volumeRemoveErr name = none →
      io.volumeRemoveErr (name ++ "-env") = none →
      name ∉ (stopJobContainer hasC reuse isLocal name io w).1.volumes ∧
      (name ++ "-env") ∉ (stopJobContainer hasC reuse isLocal name io w).1.volumes) ∧
    (∀ v f w', v ∉ w'.volumes → NewDockerVolumeRemoveExecutor v f io w' = (w', none)) ∧
    (hasC = true → reuse = false → isLocal = false → io.containerRemoveErr = none →
      w.volumes.Nodup → name ∈ w.volumes →
      ∀ e, io.volumeRemoveErr name = some e → io.volumeRemoveErr (name ++ "-env") = none →
      (name ++ "-env") ∉ (stopJobContainer hasC reuse isLocal name io w).1.volumes ∧
      (stopJobContainer hasC reuse isLocal name io w).2 = some e) ∧
    ((stopJobContainer hasC reuse isLocal name io w).2 = none →
      (stopJobContainer hasC reuse isLocal name io
          ((stopJobContainer hasC reuse isLocal name io w).1)).2 = none) := by
  refine ⟨?_, ?_, ?_, ?_, ?_⟩
  · intro h1 h2 h3
    subst h1 h2
    have hr : stopJobContainer true false isLocal name io w
        = thenExec (containerRemove io) (ifExec (!isLocal) (volumesChain name io)) w := rfl
    rw [hr, thenExec_none (containerRemove_ok io w h3)]
    cases isLocal with
    | false =>
        rw [show (!false : Bool) = true from rfl, ifExec_true, volumesChain_containerExists]
    | true =>
        rw [show (!true : Bool) = false from rfl, ifExec_false]
  · intro h1 h2 h3 h4 hnd h6 h7
    subst h1 h2 h3
    have hr : stopJobContainer true false false name io w
        = thenExec (containerRemove io) (ifExec (!false) (volumesChain name io)) w := rfl
    rw [hr, thenExec_none (containerRemove_ok io w h4),
        show (!false : Bool) = true from rfl, ifExec_true]
    unfold volumesChain
    rcases hu : NewDockerVolumeRemoveExecutor name false io
      { containerExists := false, volumes := w.volumes } with ⟨wa, ra⟩
    have hname_wa : name ∉ wa.volumes := by
      have := ndvre_removes name false io
        { containerExists := false, volumes := w.volumes } hnd h6
      rw [hu] at this
      exact this
    have hnd_wa : wa.volumes.Nodup := by
      have := ndvre_nodup name false io
        { containerExists := false, volumes := w.volumes } hnd
      rw [hu] at this
      exact this
    have henv_final : name ++ "-env"
        ∉ (NewDockerVolumeRemoveExecutor (name ++ "-env") false io wa).1.volumes :=
      ndvre_removes (name ++ "-env") false io wa hnd_wa h7
    have hname_final : name
        ∉ (NewDockerVolumeRemoveExecutor (name ++ "-env") false io wa).1.volumes := by
      intro hmem
      exact hname_wa ((ndvre_mem_iff name (name ++ "-env") false io wa
        (Ne.symm (append_env_ne name))).mp hmem)
    cases ra with
    | none => rw [finallyExec_none hu]; exact ⟨hname_final, henv_final⟩
    | some e => rw [finallyExec_some hu]; exact ⟨hname_final, henv_final⟩
  · intro v f w' h
    exact ndvre_not_mem v f io w' h
  · intro h1 h2 h3 h4 hnd hmem e herr henv
    subst h1 h2 h3
    have hr : stopJobContainer true false false name io w
        = thenExec (containerRemove io) (ifExec (!false) (volumesChain name io)) w := rfl
    rw [hr, thenExec_none (containerRemove_ok io w h4),
        show (!false : Bool) = true from rfl, ifExec_true]
    unfold volumesChain
    have hu : NewDockerVolumeRemoveExecutor name false io
        { containerExists := false, volumes := w.volumes }
        = ({ containerExists := false, volumes := w.volumes }, some e) := by
      unfold NewDockerVolumeRemoveExecutor removeExecutor
      simp only [hmem, if_true, herr]
    rw [finallyExec_some hu]
    exact ⟨ndvre_removes (name ++ "-env") false io _ hnd henv, rfl⟩
  · intro h1
    by_cases hcond : (hasC && !reuse) = true
    · have hrw : ∀ w0 : DockerWorld, stopJobContainer hasC reuse isLocal name io w0
          = thenExec (containerRemove io) (ifExec (!isLocal) (volumesChain name io)) w0 := by
        intro w0
        unfold stopJobContainer
        exact if_pos hcond
      rw [hrw] at h1
      rw [hrw, hrw]
      rcases hw : containerRemove io w with ⟨w1, r1⟩
      cases r1 with
      | some e =>
          rw [thenExec_some hw] at h1
          cases h1
      | none =>
          have hce1 : w1.containerExists = false := (containerRemove_none_inv io w w1 hw).1
          rw [thenExec_none hw] at h1 ⊢
          cases isLocal with
          | true =>
              rw [show (!true : Bool) = false from rfl, ifExec_false] at h1 ⊢
              rw [thenExec_none (containerRemove_notExists io w1 hce1), ifExec_false]
          | false =>
              rw [show (!false : Bool) = true from rfl, ifExec_true] at h1 ⊢
              have hce2 : (volumesChain name io w1).1.containerExists = false := by
                rw [volumesChain_containerExists]
                exact hce1
              rw [thenExec_none (containerRemove_notExists io _ hce2), ifExec_true]
              exact volumesChain_ok_mono name io w1 (volumesChain name io w1).1 h1
                (volumesChain_subset name io w1)
    · have hrw : ∀ w0 : DockerWorld, stopJobContainer hasC reuse isLocal name io w0
          = (w0, none) := by
        intro w0
        unfold stopJobContainer
        exact if_neg hcond
      rw [hrw, hrw]

/-- Witness for C4 at a concrete world: container present, both volumes and an
unrelated volume present, no driver errors — both job volumes are removed and
a second Stop on the already-removed set returns no error. -/
theorem stopJobContainer_spec_witness :
    "act-w-j" ∉ (stopJobContainer true false false "act-w-j"
        ⟨none, fun _ => none⟩ ⟨true, ["act-w-j", "act-w-j-env", "other"]⟩).1.volumes
    ∧ "act-w-j-env" ∉ (stopJobContainer true false false "act-w-j"
        ⟨none, fun _ => none⟩ ⟨true, ["act-w-j", "act-w-j-env", "other"]⟩).1.volumes
    ∧ (stopJobContainer true false false "act-w-j" ⟨none, fun _ => none⟩
        ((stopJobContainer true false false "act-w-j" ⟨none, fun _ => none⟩
          ⟨true, ["act-w-j", "act-w-j-env", "other"]⟩).1)).2 = none := by
  have h := stopJobContainer_spec true false false "act-w-j" ⟨none, fun _ => none⟩
    ⟨true, ["act-w-j", "act-w-j-env", "other"]⟩
  have hb := h.2.1 rfl rfl rfl rfl (by decide) rfl rfl
  exact ⟨hb.1, hb.2, h.2.2.2.2 (by decide)⟩

/-! ## GitHub context: `getGithubContext` (run_context.go lines 626-654) and
`applyDefaults` (lines 656-709) -/

/-- The string fields of `model.GithubContext` that `getGithubContext` and
`applyDefaults` write.  The `Event` payload map is not modelled as a field; the
two values `applyDefaults` extracts from it for pull requests enter through
`GhRC.eventBaseRef`/`eventHeadRef` below. -/
structure GithubContext where
  eventPath : String
  workflow : String
  runID : String
  runNumber : String
  runAttempt : String
  actor : String
  eventName : String
  workspace : String
  action : String
  token : String
  actionPath : String
  actionRef : String
  actionRepository : String
  repositoryOwner : String
  retentionDays : String
  runnerPerflog : String
  runnerTrackingID : String
  repository : String
  ref : String
  sha : String
  baseRef : String
  headRef : String
deriving DecidableEq, Repr

/-- A successfully parsed serialized base context: which fields the JSON
document carries (`none` = absent from the document). -/
structure GithubPatch where
  eventPath : Option String := none
  workflow : Option String := none
  runID : Option String := none
  runNumber : Option String := none
  runAttempt : Option String := none
  actor : Option String := none
  eventName : Option String := none
  workspace : Option String := none
  action : Option String := none
  token : Option String := none
  actionPath : Option String := none
  actionRef : Option String := none
  actionRepository : Option String := none
  repositoryOwner : Option String := none
  retentionDays : Option String := none
  runnerPerflog : Option String := none
  runnerTrackingID : Option String := none
  repository : Option String := none
  ref : Option String := none
  sha : Option String := none
  baseRef : Option String := none
  headRef : Option String := none
deriving DecidableEq, Repr

/-- The effect of a successful `json.Unmarshal([]byte(base), ghc)` into the
pre-filled struct `ghc` (line 648): fields present in the document overwrite
the current values, fields absent from the document keep them. -/
def applyPatch (g : GithubContext) (p : GithubPatch) : GithubContext where
  eventPath := p.eventPath.getD g.eventPath
  workflow := p.workflow.getD g.workflow
  runID := p.runID.getD g.runID
  runNumber := p.runNumber.getD g.runNumber
  runAttempt := p.runAttempt.getD g.runAttempt
  actor := p.actor.getD g.actor
  eventName := p.eventName.getD g.eventName
  workspace := p.workspace.getD g.workspace
  action := p.action.getD g.action
  token := p.token.getD g.token
  actionPath := p.actionPath.getD g.actionPath
  actionRef := p.actionRef.getD g.actionRef
  actionRepository := p.actionRepository.getD g.actionRepository
  repositoryOwner := p.repositoryOwner.getD g.repositoryOwner
  retentionDays := p.retentionDays.getD g.retentionDays
  runnerPerflog := p.runnerPerflog.getD g.runnerPerflog
  runnerTrackingID := p.runnerTrackingID.getD g.runnerTrackingID
  repository := p.repository.getD g.repository
  ref := p.ref.getD g.ref
  sha := p.sha.getD g.sha
  baseRef := p.baseRef.getD g.baseRef
  headRef := p.headRef.getD g.headRef

/-- A complete serialized snapshot of `g`: every field present. -/
def toPatch (g : GithubContext) : GithubPatch where
  eventPath := some g.eventPath
  workflow := some g.workflow
  runID := some g.runID
  runNumber := some g.runNumber
  runAttempt := some g.runAttempt
  actor := some g.actor
  eventName := some g.eventName
  workspace := some g.workspace
  action := some g.action
  token := some g.token
  actionPath := some g.actionPath
  actionRef := some g.actionRef
  actionRepository := some g.actionRepository
  repositoryOwner := some g.repositoryOwner
  retentionDays := some g.retentionDays
  runnerPerflog := some g.runnerPerflog
  runnerTrackingID := some g.runnerTrackingID
  repository := some g.repository
  ref := some g.ref
  sha := some g.sha
  baseRef := some g.baseRef
  headRef := some g.headRef

/-- The inputs `getGithubContext` reads: the optional serialized base context
(`none` = not supplied; `some none` = supplied but unparseable — modelled as
writing nothing, the syntax-error behaviour of `json.Unmarshal`; `some (some
p)` = parses to `p`), the `RunContext`/`Config` fields used to pre-fill the
context (lines 627-646), and the external lookups `applyDefaults` consumes:
`common.FindGithubRepo` on the workdir (`none` = lookup error, warned only),
the two values read from the parsed event payload for pull requests, and the
model package's `SetRefAndSha`, abstracted as a function parameter. -/
structure GhRC where
  githubContextBase : Option (Option GithubPatch)
  actPath : String
  workflowName : String
  actor : String
  eventName : String
  workspace : String
  currentStep : String
  actionPath : String
  actionRef : String
  actionRepository : String
  configEnv : SMap
  secrets : SMap
  workdirRepo : Option String
  eventBaseRef : String
  eventHeadRef : String
  refSha : GithubContext → GithubContext

/-- The pre-filled context built at the top of `getGithubContext`
(lines 627-646); Go map reads default to `""`. -/
def initialGhc (rc : GhRC) : GithubContext where
  eventPath := rc.actPath ++ "/workflow/event.json"
  workflow := rc.workflowName
  runID := (rc.configEnv "GITHUB_RUN_ID").getD ""
  runNumber := (rc.configEnv "GITHUB_RUN_NUMBER").getD ""
  runAttempt := (rc.configEnv "GITHUB_RUN_ATTEMPT").getD ""
  actor := rc.actor
  eventName := rc.eventName
  workspace := rc.workspace
  action := rc.currentStep
  token := (rc.secrets "GITHUB_TOKEN").getD ""
  actionPath := rc.actionPath
  actionRef := rc.actionRef
  actionRepository := rc.actionRepository
  repositoryOwner := (rc.configEnv "GITHUB_REPOSITORY_OWNER").getD ""
  retentionDays := (rc.configEnv "GITHUB_RETENTION_DAYS").getD ""
  runnerPerflog := (rc.configEnv "RUNNER_PERFLOG").getD ""
  runnerTrackingID := (rc.configEnv "RUNNER_TRACKING_ID").getD ""
  repository := ""
  ref := ""
  sha := ""
  baseRef := ""
  headRef := ""

/-- `applyDefaults` from run_context.go (lines 656-709): default run metadata,
the backwards-compatible default actor, repository/owner from the git lookup,
pull-request base/head refs from the event payload, and finally
`SetRefAndSha`. -/
def applyDefaults (rc : GhRC) (ghc0 : GithubContext) : GithubContext :=
  let g := ghc0
  let g := if g.runID = "" then { g with runID := "1" } else g
  let g := if g.runNumber = "" then { g with runNumber := "1" } else g
  let g := if g.runAttempt = "" then { g with runAttempt := "1" } else g
  let g := if g.retentionDays = "" then { g with retentionDays := "0" } else g
  let g := if g.runnerPerflog = "" then { g with runnerPerflog := "/dev/null" } else g
  let g := if g.actor = "" then { g with actor := "nektos/act" } else g
  let g := match rc.workdirRepo with
    | none => g
    | some repo =>
        let g1 := { g with repository := repo }
        if g1.repositoryOwner = "" then
          { g1 with repositoryOwner := (repo.splitOn "/").headD "" }
        else g1
  let g := if g.eventName = "pull_request" then
      { g with baseRef := rc.eventBaseRef, headRef := rc.eventHeadRef }
    else g
  rc.refSha g

/-- `getGithubContext` from run_context.go (lines 626-654): pre-fill the
context; if a serialized base is supplied and unmarshals successfully, return
the unmarshalled struct at once (skipping `applyDefaults`); otherwise fall
through to `applyDefaults`. -/
def getGithubContext (rc : GhRC) : GithubContext :=
  let ghc := initialGhc rc
  match rc.githubContextBase with
  | some (some p) => applyPatch ghc p
  | some none => applyDefaults rc ghc
  | none => applyDefaults rc ghc

/-- The zero `model.GithubContext` a standalone unmarshal would start from. -/
def emptyGithubContext : GithubContext where
  eventPath := ""
  workflow := ""
  runID := ""
  runNumber := ""
  runAttempt := ""
  actor := ""
  eventName := ""
  workspace := ""
  action := ""
  token := ""
  actionPath := ""
  actionRef := ""
  actionRepository := ""
  repositoryOwner := ""
  retentionDays := ""
  runnerPerflog := ""
  runnerTrackingID := ""
  repository := ""
  ref := ""
  sha := ""
  baseRef := ""
  headRef := ""

/-- C7 (amended): when the supplied base context parses, the fields present in
it overwrite the corresponding pre-computed fields, `applyDefaults` is skipped,
and fields absent from the base retain their pre-computed values — so a
complete serialized snapshot fully replaces the computed context, while a
partial one is merged into it; when the base fails to parse, it is silently
ignored and the result is exactly what a run without a supplied base
computes. -/
theorem getGithubContext_spec (rc : GhRC) :
    (∀ p, rc.githubContextBase = some (some p) →
      getGithubContext rc = applyPatch (initialGhc rc) p) ∧
    (∀ g, rc.githubContextBase = some (some (toPatch g)) →
      getGithubContext rc = g) ∧
    (rc.githubContextBase = some none →
      getGithubContext rc = getGithubContext { rc with githubContextBase := none }) := by
  refine ⟨?_, ?_, ?_⟩
  · intro p hp
    simp only [getGithubContext, hp]
  · intro g hp
    simp only [getGithubContext, hp]
    rfl
  · intro hp
    simp only [getGithubContext, hp]
    rfl

/-- The concrete input of the C7 counterexample: a workflow named `"wf"` and a
supplied base context that parses and carries only `run_id = "99"`. -/
def rcC7 : GhRC where
  githubContextBase := some (some { runID := some "99" })
  actPath := "/var/run/act"
  workflowName := "wf"
  actor := "me"
  eventName := "push"
  workspace := "/ws"
  currentStep := ""
  actionPath := ""
  actionRef := ""
  actionRepository := ""
  configEnv := emptyS
  secrets := emptyS
  workdirRepo := none
  eventBaseRef := ""
  eventHeadRef := ""
  refSha := id

/-- Counterexample to C7 as stated: the parsed base context does NOT fully
replace the computed fields — the result keeps the computed workflow name
`"wf"`, so it differs from the parsed snapshot standing alone (a standalone
unmarshal of the same document into a zero struct), whose workflow is `""`. -/
theorem getGithubContext_counterexample :
    (getGithubContext rcC7).workflow = "wf"
      ∧ (getGithubContext rcC7).runID = "99"
      ∧ getGithubContext rcC7 ≠ applyPatch emptyGithubContext { runID := some "99" } := by
  refine ⟨rfl, rfl, ?_⟩
  intro h
  have hw : ("wf" : String) = "" := congrArg GithubContext.workflow h
  exact absurd hw (by decide)

/-- Witness for C7 (amended) at the concrete input `rcC7`: the parsed base is
merged into the pre-computed context. -/
theorem getGithubContext_spec_witness :
    getGithubContext rcC7 = applyPatch (initialGhc rcC7) { runID := some "99" } := by
  exact (getGithubContext_spec rcC7).1 { runID := some "99" } rfl

/-! ## Deterministic naming: `createContainerName` (run_context.go lines
576-607).

Go strings are modelled as rune lists.  All characters the function emits are
ASCII (the sanitizer maps every rune outside `[a-zA-Z0-9]` to `-`), so Go's
byte-based `len`/slicing coincides with rune counting. -/

/-- The character class `[a-zA-Z0-9]` of the sanitizing regexp (line 578). -/
def isAlnum (c : Char) : Bool :=
  ('a' ≤ c && c ≤ 'z') || ('A' ≤ c && c ≤ 'Z') || ('0' ≤ c && c ≤ '9')

/-- `pattern.ReplaceAllString(part, "-")` (lines 582, 589, 592): every rune
outside `[a-zA-Z0-9]` becomes a hyphen. -/
def sanitize (s : List Char) : List Char :=
  s.map fun c => if isAlnum c then c else '-'

/-- The character class `[0-9]`. -/
def isDigitCh (c : Char) : Bool := '0' ≤ c && c ≤ '9'

/-- `regexp.MustCompile("-[0-9]+$").FindStringSubmatch(part)` (lines 586-587):
the leftmost match of `-[0-9]+$`, i.e. a hyphen followed by the maximal
non-empty trailing digit run of the part. -/
def matrixSuffix (s : List Char) : Option (List Char) :=
  let r := s.reverse
  let ds := r.takeWhile isDigitCh
  match ds, r.drop ds.length with
  | [], _ => none
  | _ :: _, '-' :: _ => some ('-' :: ds.reverse)
  | _ :: _, _ => none

/-- `trimToLen` (lines 599-607); the budget is a Go `int` and may be
negative, in which case it is clamped to zero. -/
def trimToLen (s : List Char) (l : Int) : List Char :=
  let lc : Int := if l < 0 then 0 else l
  if (s.length : Int) > lc then s.take lc.toNat else s

/-- The loop of `createContainerName` (lines 580-595): the `name` slice
elements contributed by the parts.  The final part is only sanitized; a
non-final part is sanitized and truncated to the budget — a matrix suffix has
its length carved out of the budget first and is then appended verbatim as an
element of its own. -/
def nameElems (partLen : Int) : List (List Char) → List (List Char)
  | [] => []
  | [p] => [sanitize p]
  | p :: rest =>
      (match matrixSuffix p with
        | some m => [trimToLen (sanitize p) (partLen - m.length), m]
        | none => [trimToLen (sanitize p) partLen]) ++ nameElems partLen rest

/-- `strings.Join(name, "-")` (line 596). -/
def joinHyphen : List (List Char) → List Char
  | [] => []
  | [x] => x
  | x :: rest => x ++ '-' :: joinHyphen rest

/-- `strings.Trim(s, "-")` (line 596): strip leading and trailing hyphens. -/
def trimHyphens (s : List Char) : List Char :=
  ((s.dropWhile (fun c => c = '-')).reverse.dropWhile (fun c => c = '-')).reverse

/-- `strings.ReplaceAll(s, "--", "-")` (line 596): a single left-to-right
pass; at each position an occurrence of `--` becomes `-` and the scan resumes
after the replacement. -/
def collapseDoubleHyphens : List Char → List Char
  | [] => []
  | [c] => [c]
  | c :: d :: rest =>
      if c = '-' ∧ d = '-' then '-' :: collapseDoubleHyphens rest
      else c :: collapseDoubleHyphens (d :: rest)

/-- `createContainerName` (lines 576-597) over rune lists. -/
def createContainerNameL (parts : List (List Char)) : List Char :=
  collapseDoubleHyphens (trimHyphens
    (joinHyphen (nameElems (30 / (parts.length : Int) - 1) parts)))

/-- `createContainerName` (lines 576-597). -/
def createContainerName (parts : List String) : String :=
  ⟨createContainerNameL (parts.map String.data)⟩

/-- Executable check for two consecutive hyphens. -/
def hasDoubleHyphen : List Char → Bool
  | [] => false
  | [_] => false
  | c :: d :: rest => (c = '-' && d = '-') || hasDoubleHyphen (d :: rest)

/-- Executable substring check (used to state suffix preservation). -/
def containsSeq (s pat : List Char) : Bool :=
  (List.range (s.length + 1)).any fun i => (s.drop i).take pat.length == pat

theorem dropWhile_head_ne {α : Type} (p : α → Bool) (l : List α) (c : α)
    (h : (l.dropWhile p).head? = some c) : p c = false := by
  have hd := List.head?_dropWhile_not p l
  rw [h] at hd
  exact hd

theorem dropWhile_getLast?_eq {α : Type} (p : α → Bool) :
    ∀ t : List α, t.dropWhile p = [] ∨ (t.dropWhile p).getLast? = t.getLast? := by
  intro t
  induction t with
  | nil => exact Or.inl rfl
  | cons a t ih =>
      by_cases hp : p a
      · rw [List.dropWhile_cons_of_pos hp]
        cases hd : t.dropWhile p with
        | nil => exact Or.inl rfl
        | cons x xs =>
            rcases ih with h | h
            · rw [h] at hd
              cases hd
            · right
              rw [← hd, h]
              cases t with
              | nil => cases hd
              | cons b t' => exact List.getLast?_cons_cons.symm
      · rw [List.dropWhile_cons_of_neg hp]
        exact Or.inr rfl

theorem trimHyphens_head (s : List Char) (c : Char)
    (h : (trimHyphens s).head? = some c) : c ≠ '-' := by
  unfold trimHyphens at h
  rw [List.head?_reverse] at h
  rcases dropWhile_getLast?_eq (fun c => c = '-') (s.dropWhile (fun c => c = '-')).reverse
    with hnil | heq
  · rw [hnil] at h
    cases h
  · rw [heq, List.getLast?_reverse] at h
    have := dropWhile_head_ne (fun c => c = '-') s c h
    exact of_decide_eq_false this

theorem trimHyphens_getLast (s : List Char) (c : Char)
    (h : (trimHyphens s).getLast? = some c) : c ≠ '-' := by
  unfold trimHyphens at h
  rw [List.getLast?_reverse] at h
  have := dropWhile_head_ne (fun c => c = '-') (s.dropWhile (fun c => c = '-')).reverse c h
  exact of_decide_eq_false this

theorem collapse_ne_nil : ∀ s : List Char, s ≠ [] → collapseDoubleHyphens s ≠ [] := by
  intro s hs
  match s with
  | [c] => simp [collapseDoubleHyphens]
  | c :: d :: rest =>
      simp only [collapseDoubleHyphens]
      split <;> simp

theorem getLast?_cons_of_ne_nil {α : Type} (a : α) (l : List α) (h : l ≠ []) :
    (a :: l).getLast? = l.getLast? := by
  cases l with
  | nil => exact absurd rfl h
  | cons b m => exact List.getLast?_cons_cons

theorem collapse_head (s : List Char) (h : s.head? ≠ some '-') :
    (collapseDoubleHyphens s).head? ≠ some '-' := by
  match s with
  | [] => exact h
  | [c] => simpa [collapseDoubleHyphens] using h
  | c :: d :: rest =>
      simp only [List.head?_cons] at h
      have hc : c ≠ '-' := fun hh => h (by rw [hh])
      simp only [collapseDoubleHyphens]
      rw [if_neg (fun hcd => hc hcd.1)]
      simpa using hc

theorem collapse_getLast : ∀ (s : List Char), s.getLast? ≠ some '-' →
    (collapseDoubleHyphens s).getLast? ≠ some '-'
  | [], h => h
  | [c], h => by simpa [collapseDoubleHyphens] using h
  | c :: d :: rest, h => by
      by_cases hcd : c = '-' ∧ d = '-'
      · simp only [collapseDoubleHyphens]
        rw [if_pos hcd]
        cases rest with
        | nil =>
            exact absurd (by rw [hcd.2]; rfl : (c :: d :: ([] : List Char)).getLast?
              = some '-') h
        | cons x xs =>
            rw [getLast?_cons_of_ne_nil _ _ (collapse_ne_nil _ (by simp))]
            apply collapse_getLast
            rw [List.getLast?_cons_cons, List.getLast?_cons_cons] at h
            exact h
      · simp only [collapseDoubleHyphens]
        rw [if_neg hcd]
        rw [getLast?_cons_of_ne_nil _ _ (collapse_ne_nil _ (by simp))]
        apply collapse_getLast
        rw [List.getLast?_cons_cons] at h
        exact h

/-- C8 (amended): `createContainerName` is deterministic — identical ordered
parts yield a byte-identical name — and the result never begins or ends with a
hyphen.  However — contrary to the original claim — the result CAN contain two
consecutive hyphens: the doubled-hyphen collapse is a single left-to-right
pass, so a run of three or more hyphens before collapsing leaves a doubled
hyphen in the final name. -/
theorem createContainerName_det_boundary (parts : List (List Char))
    (hne : parts ≠ []) :
    (∀ qs, parts = qs → createContainerNameL parts = createContainerNameL qs) ∧
    (createContainerNameL parts).head? ≠ some '-' ∧
    (createContainerNameL parts).getLast? ≠ some '-' := by
  refine ⟨fun qs h => by rw [h], ?_, ?_⟩
  · unfold createContainerNameL
    apply collapse_head
    intro hcon
    exact trimHyphens_head _ '-' hcon rfl
  · unfold createContainerNameL
    apply collapse_getLast
    intro hcon
    exact trimHyphens_getLast _ '-' hcon rfl

/-- Counterexample to C8 as stated: the parts `["a!!", "b"]` produce the name
`"a--b"`, which contains two consecutive hyphens (pre-collapse the joined
name is `"a---b"`, and one replacement pass leaves `"a--b"`). -/
theorem createContainerName_counterexample :
    createContainerName ["a!!", "b"] = "a--b"
      ∧ hasDoubleHyphen (createContainerNameL ["a!!".data, "b".data]) = true := by
  exact ⟨rfl, by decide⟩

/-- Witness for C8 (amended) at the concrete parts `["act", "build-3"]`. -/
theorem createContainerName_det_boundary_witness :
    (createContainerNameL ["act".data, "build-3".data]).head? ≠ some '-'
      ∧ (createContainerNameL ["act".data, "build-3".data]).getLast? ≠ some '-' := by
  have h := createContainerName_det_boundary ["act".data, "build-3".data]
    (List.cons_ne_nil _ _)
  exact ⟨h.2.1, h.2.2⟩

theorem nameElems_cons₂ (partLen : Int) (p q : List Char) (rest : List (List Char)) :
    nameElems partLen (p :: q :: rest)
      = (match matrixSuffix p with
          | some m => [trimToLen (sanitize p) (partLen - m.length), m]
          | none => [trimToLen (sanitize p) partLen]) ++ nameElems partLen (q :: rest) := rfl

theorem nameElems_suffix_decomp (partLen : Int) (pre : List (List Char)) :
    ∀ (part : List Char) (rest : List (List Char)) (m : List Char),
      rest ≠ [] → matrixSuffix part = some m →
      ∃ l r, nameElems partLen (pre ++ part :: rest)
        = l ++ trimToLen (sanitize part) (partLen - m.length) :: m :: r := by
  induction pre with
  | nil =>
      intro part rest m hrest hm
      cases rest with
      | nil => exact absurd rfl hrest
      | cons q rest' =>
          refine ⟨[], nameElems partLen (q :: rest'), ?_⟩
          rw [List.nil_append, nameElems_cons₂, hm]
          rfl
  | cons p0 pre' ih =>
      intro part rest m hrest hm
      obtain ⟨l, r, hlr⟩ := ih part rest m hrest hm
      cases htl : pre' ++ part :: rest with
      | nil => rw [htl] at hlr; cases l <;> cases hlr
      | cons x xs =>
          refine ⟨(match matrixSuffix p0 with
            | some m0 => [trimToLen (sanitize p0) (partLen - m0.length), m0]
            | none => [trimToLen (sanitize p0) partLen]) ++ l, r, ?_⟩
          rw [List.cons_append, htl, nameElems_cons₂, ← htl, hlr, List.append_assoc]

theorem joinHyphen_infix_of_mem : ∀ (L : List (List Char)) (x : List Char), x ∈ L →
    ∃ u v, joinHyphen L = u ++ x ++ v
  | [], x, h => absurd h (List.not_mem_nil x)
  | [y], x, h => by
      have hx : x = y := List.mem_singleton.mp h
      exact ⟨[], [], by rw [hx]; simp [joinHyphen]⟩
  | y :: z :: L', x, h => by
      rcases List.mem_cons.mp h with hx | hx
      · refine ⟨[], '-' :: joinHyphen (z :: L'), ?_⟩
        rw [← hx]
        simp [joinHyphen]
      · obtain ⟨u, v, huv⟩ := joinHyphen_infix_of_mem (z :: L') x hx
        refine ⟨y ++ '-' :: u, v, ?_⟩
        rw [show joinHyphen (y :: z :: L') = y ++ '-' :: joinHyphen (z :: L') from rfl, huv]
        simp

theorem containsSeq_of_decomp (s pat u v : List Char) (h : s = u ++ pat ++ v) :
    containsSeq s pat = true := by
  unfold containsSeq
  rw [List.any_eq_true]
  refine ⟨u.length, List.mem_range.mpr ?_, ?_⟩
  · rw [h]
    simp only [List.length_append]
    omega
  · rw [h, List.append_assoc, List.drop_left, List.take_left]
    simp

/-- C9 (amended): in `createContainerName`, a non-final part (an element of
`pre` followed by `part` followed by non-empty `rest`) whose trailing
`-<digits>` matrix suffix is `m` contributes exactly two name elements: the
sanitized part truncated to the budget `30/partCount − 1` MINUS the suffix
length, and the suffix itself, verbatim; consequently the suffix appears
verbatim in the raw hyphen-joined name.  (The original claim's "preserved
verbatim in the final name" fails: the subsequent boundary trimming and
hyphen collapsing can strip the suffix's leading hyphen — see the
counterexample.) -/
theorem createContainerName_matrix_suffix (pre : List (List Char)) (part : List Char)
    (rest : List (List Char)) (m : List Char)
    (hrest : rest ≠ []) (hm : matrixSuffix part = some m) :
    (∃ l r, nameElems (30 / (((pre ++ part :: rest).length : Int)) - 1) (pre ++ part :: rest)
        = l ++ trimToLen (sanitize part)
            ((30 / (((pre ++ part :: rest).length : Int)) - 1) - m.length) :: m :: r) ∧
    containsSeq (joinHyphen (nameElems (30 / (((pre ++ part :: rest).length : Int)) - 1)
        (pre ++ part :: rest))) m = true := by
  obtain ⟨l, r, hlr⟩ := nameElems_suffix_decomp
    (30 / (((pre ++ part :: rest).length : Int)) - 1) pre part rest m hrest hm
  refine ⟨⟨l, r, hlr⟩, ?_⟩
  have hmem : m ∈ nameElems (30 / (((pre ++ part :: rest).length : Int)) - 1)
      (pre ++ part :: rest) := by
    rw [hlr]
    simp
  obtain ⟨u, v, huv⟩ := joinHyphen_infix_of_mem _ m hmem
  exact containsSeq_of_decomp _ m u v huv

/-- Counterexample to C9 as stated: with parts `["-1234567890123", "x"]` the
first (non-final) part's matrix suffix is `"-1234567890123"` (14 characters,
the whole part); the budget is `30/2 − 1 = 14`, so the truncated remainder is
empty and the raw joined name is `"--1234567890123-x"`; trimming the leading
hyphens strips the suffix's own hyphen and the final name
`"1234567890123-x"` does NOT contain the suffix verbatim. -/
theorem createContainerName_matrix_suffix_counterexample :
    matrixSuffix "-1234567890123".data = some "-1234567890123".data
      ∧ createContainerName ["-1234567890123", "x"] = "1234567890123-x"
      ∧ containsSeq (createContainerNameL ["-1234567890123".data, "x".data])
          "-1234567890123".data = false := by
  exact ⟨by decide, rfl, by decide⟩

/-- Witness for C9 (amended) at the concrete parts `["job-3", "x"]` whose
first part carries the matrix suffix `"-3"`. -/
theorem createContainerName_matrix_suffix_witness :
    (∃ l r, nameElems (30 / ((([("job-3".data : List Char)] ++ "job-3".data :: [("x".data : List Char)]).length : Int)) - 1) ([("job-3".data : List Char)] ++ "job-3".data :: [("x".data : List Char)]) = l ++ trimToLen (sanitize "job-3".data) ((30 / ((([("job-3".data : List Char)] ++ "job-3".data :: [("x".data : List Char)]).length : Int)) - 1) - ("-3".data : List Char).length) :: "-3".data :: r) := by
  have h := createContainerName_matrix_suffix [("job-3".data : List Char)] "job-3".data
    [("x".data : List Char)] "-3".data (List.cons_ne_nil _ _) (by decide)
  exact h.1

end Act
